import Mathlib

/-!
Verification of `fftabs.py`, a script that reads Firefox session snapshots
and ranks the recorded tabs against a free-text query.

The Python source is embedded shallowly:

* Python strings are `List Char`; `str.lower`/`str.upper` are modelled
  characterwise with Lean's ASCII `Char.toLower`/`Char.toUpper`.
* Floating-point scores are modelled as exact rationals `ℚ`.
* `difflib.SequenceMatcher.ratio()` (with `isjunk=None`, which is how the
  script uses it) is modelled by its documented contract: the longest
  matching block, earliest in `a` and then in `b`, is found, both sides are
  split around it recursively, and the ratio is `2*M/T` for `M` the total
  size of the matching blocks and `T` the total length (`1` when both are
  empty).  The autojunk heuristic for second sequences of length ≥ 200 is
  not modelled.
* `urllib.parse.urlparse` is modelled down to the two fields the script
  reads, `hostname` and `path` (bracketed-host validation errors are not
  modelled).
* Dictionary lookups in `tab_info` are modelled by `Option`-valued fields;
  a missing key raises, which is modelled by `Except SchemaError`.
* The `__main__` block is modelled over an abstract list of per-file decode
  results, since lz4 decompression itself is out of scope.
-/

attribute [local semireducible] Rat.add Rat.mul Rat.inv Rat.sub

set_option maxRecDepth 10000

namespace Fftabs

/-- Python strings, modelled as lists of characters. -/
abbrev Str := List Char

/-- A `(title, url)` tab record. -/
abbrev Tab := Str × Str

/-- Python `str.lower`, characterwise (ASCII). -/
def lowerStr (s : Str) : Str := s.map Char.toLower

/-- Python `str.upper`, characterwise (ASCII). -/
def upperStr (s : Str) : Str := s.map Char.toUpper

/-- Python `needle in haystack`: contiguous substring containment. -/
def isSubstr (needle haystack : Str) : Bool :=
  (List.range (haystack.length + 1)).any fun i => needle.isPrefixOf (haystack.drop i)

/-! ### difflib.SequenceMatcher -/

/-- Length of the longest common prefix of two character lists. -/
def commonLen : List Char → List Char → Nat
  | x :: xs, y :: ys => if x = y then commonLen xs ys + 1 else 0
  | _, _ => 0

/-- One step of the search for the longest matching block: scan all start
positions `j` in `b` against the fixed start position `i` in `a`, keeping
the incumbent on ties (so the earliest position wins). -/
def flmInner (a b : List Char) (best : Nat × Nat × Nat) (i : Nat) : Nat × Nat × Nat :=
  (List.range b.length).foldl
    (fun best j =>
      if best.2.2 < commonLen (a.drop i) (b.drop j) then
        (i, j, commonLen (a.drop i) (b.drop j))
      else best)
    best

/-- `SequenceMatcher.find_longest_match` over whole sequences, `isjunk=None`:
returns `(i, j, k)` such that `a[i:i+k] = b[j:j+k]` is a longest matching
block, and among those the one starting earliest in `a`, then earliest in
`b`; `(0, 0, 0)` when there is no match. -/
def findLongestMatch (a b : List Char) : Nat × Nat × Nat :=
  (List.range a.length).foldl (flmInner a b) (0, 0, 0)

/-- The in-range invariant used for the block search. -/
def FlmInv (a b : List Char) (s : Nat × Nat × Nat) : Prop :=
  s.1 + s.2.2 ≤ a.length ∧ s.2.1 + s.2.2 ≤ b.length ∧
    (s.2.2 ≠ 0 → s.1 < a.length ∧ s.2.1 < b.length)

/-- Total size of the matching blocks of `get_matching_blocks`: the longest
block is taken and both sequences are split around it recursively.  The
recursion is driven by a fuel argument so that it is structural (and hence
evaluates inside the kernel); `matchTotal` supplies fuel `a.length +
b.length`, which always suffices because the combined length of the two
sub-problems strictly decreases at every split. -/
def matchTotalF : Nat → List Char → List Char → Nat
  | 0, _, _ => 0
  | fuel + 1, a, b =>
    if (findLongestMatch a b).2.2 = 0 then 0
    else
      (findLongestMatch a b).2.2
        + matchTotalF fuel (a.take (findLongestMatch a b).1) (b.take (findLongestMatch a b).2.1)
        + matchTotalF fuel (a.drop ((findLongestMatch a b).1 + (findLongestMatch a b).2.2))
                           (b.drop ((findLongestMatch a b).2.1 + (findLongestMatch a b).2.2))

/-- Total size of the matching blocks of the two sequences. -/
def matchTotal (a b : List Char) : Nat := matchTotalF (a.length + b.length) a b

/-- `SequenceMatcher.ratio()`:`2*M/T`, where `M` is the total matched size and
`T` the total length; `1` when both sequences are empty (`_calculate_ratio`). -/
def ratioVal (a b : List Char) : ℚ :=
  if a.length + b.length = 0 then 1
  else 2 * (matchTotal a b : ℚ) / ((a.length + b.length : Nat) : ℚ)

/-! ### urllib.parse.urlparse, restricted to the fields the script reads -/

/-- Characters allowed in a URL scheme after its first character. -/
def schemeChar (c : Char) : Bool := c.isAlphanum || c == '+' || c == '-' || c == '.'

/-- Split a leading `scheme:` when the part before the first `:` is a
well-formed scheme (letter first, then letters, digits, `+`, `-`, `.`);
the scheme is lower-cased, and empty when absent. -/
def schemeSplit (url : Str) : Str × Str :=
  match url.findIdx? (· = ':') with
  | none => ([], url)
  | some i =>
    if 0 < i ∧ (url.headD ' ').isAlpha = true ∧ ((url.take i).drop 1).all schemeChar = true then
      (lowerStr (url.take i), url.drop (i + 1))
    else ([], url)

/-- `urllib.parse.uses_params`: the schemes for which urlparse separates
`;params` from the last path segment. -/
def usesParams : List Str :=
  ["", "ftp", "hdl", "prospero", "http", "imap", "https", "shttp", "rtsp",
    "rtsps", "rtspu", "sip", "sips", "mms", "sftp", "tel"].map String.data

/-- `_splitnetloc`: the network location runs to the first `/`, `?` or `#`;
the remainder keeps its delimiter. -/
def netlocSplit (rest : Str) : Str × Str :=
  let netloc := rest.takeWhile fun c => !(c == '/' || c == '?' || c == '#')
  (netloc, rest.drop netloc.length)

/-- `ParseResult.hostname`: the part of the netloc after the last `@`,
bracket-delimited if a `[` is present and otherwise up to the port `:`,
lower-cased; `none` when empty. -/
def hostnameOf (netloc : Str) : Option Str :=
  let hostinfo :=
    match netloc.reverse.findIdx? (· = '@') with
    | none => netloc
    | some i => netloc.drop (netloc.length - i)
  let host :=
    if hostinfo.contains '[' then
      ((hostinfo.dropWhile (· ≠ '[')).drop 1).takeWhile (· ≠ ']')
    else hostinfo.takeWhile (· ≠ ':')
  if host.isEmpty then none else some (lowerStr host)

/-- `_splitparams`: drop a `;params` suffix from the last path segment. -/
def dropParams (p : Str) : Str :=
  if p.contains '/' then
    match ((p.drop (p.length - 1 - ((p.reverse.findIdx? (· = '/')).getD 0))).findIdx?
        (· = ';')) with
    | none => p
    | some i => p.take (p.length - 1 - ((p.reverse.findIdx? (· = '/')).getD 0) + i)
  else
    match p.findIdx? (· = ';') with
    | none => p
    | some i => p.take i

/-- `urllib.parse.urlparse`, producing the only two fields `diff_value`
reads: the hostname (`none` when absent) and the path. -/
def urlparse (url : Str) : Option Str × Str :=
  let schemeRest := schemeSplit url
  let netRest :=
    if schemeRest.2.take 2 = ['/', '/'] then netlocSplit (schemeRest.2.drop 2)
    else ([], schemeRest.2)
  let afterFrag := netRest.2.takeWhile (· ≠ '#')
  let path := afterFrag.takeWhile (· ≠ '?')
  let path :=
    if schemeRest.1 ∈ usesParams ∧ path.contains ';' = true then dropParams path else path
  (hostnameOf netRest.1, path)

/-! ### The scorer, fftabs.py -/

/-- One iteration of the `diff_value` loop: add the ratio against one
candidate string, skipping it when it is `None` or empty (Python's
`if string:`). -/
def diffStep (query : Str) (total : ℚ) (s : Option Str) : ℚ :=
  match s with
  | some str => if str.isEmpty then total else total + ratioVal query str
  | none => total

/-- `fftabs.diff_value`: sum of difflib ratios of the query against the
title, the full URL, the URL's hostname and the URL's path, skipping any
of the four that is empty or absent. -/
def diff_value (query title url : Str) : ℚ :=
  let parts := urlparse url
  let strings : List (Option Str) := [some title, some url, parts.1, some parts.2]
  strings.foldl (diffStep query) 0

/-- `fftabs.value`: the numeric closeness score for a query and a tab.
Query, title and URL are lower-cased; a bonus of 3 is added for an exact
substring hit in the title and again in the URL when the query has at
least 3 characters; the difflib similarity sum is added with coefficient 1. -/
def value (query : Str) (tab : Tab) : ℚ :=
  let MIN_LENGTH := 3
  let EXACT_VALUE : ℚ := 3
  let RATIO_COEFF : ℚ := 1
  let q := lowerStr query
  let title := lowerStr tab.1
  let url := lowerStr tab.2
  let total : ℚ := 0
  let total :=
    if MIN_LENGTH ≤ q.length then
      let total := if isSubstr q title then total + EXACT_VALUE else total
      let total := if isSubstr q url then total + EXACT_VALUE else total
      total
    else total
  total + diff_value q title url * RATIO_COEFF

/-- `fftabs.suggest_tabs`: keep the tabs scoring strictly above 1.5, sort
them stably by descending score (Python's `sorted` with key `-value`), and
take the first `nmax` (the script always passes the default, 10). -/
def suggest_tabs (tabs : List Tab) (query : Str) (nmax : Nat) : List Tab :=
  let THRESHOLD : ℚ := 3 / 2
  (List.insertionSort (fun a b => value query b ≤ value query a)
      (tabs.filter fun tab => THRESHOLD < value query tab)).take nmax

/-! ### The Tab Extractor, fftabs.tab_info

A decoded sessionstore document is a nesting of windows, tabs and
navigation entries.  Each field that `tab_info` reads with a dictionary
lookup is an `Option`; a missing key raises, modelled as `SchemaError`
carrying the missing key's name. -/

/-- One navigation entry of a tab. -/
structure SEntry where
  title : Option Str
  url : Option Str
deriving DecidableEq

/-- One tab of a window: its list of navigation entries, if present. -/
structure STab where
  entries : Option (List SEntry)
deriving DecidableEq

/-- One window: its list of tabs, if present. -/
structure SWindow where
  tabs : Option (List STab)
deriving DecidableEq

/-- A parsed sessionstore document: its list of windows, if present. -/
structure SessionDoc where
  windows : Option (List SWindow)
deriving DecidableEq

/-- The error raised when an expected nested field is missing (Python's
`KeyError`, which the design document calls `SchemaError`). -/
inductive SchemaError where
  | missingKey (key : String)
deriving DecidableEq

/-- The inner loop of `tab_info` over one tab's navigation entries. -/
def entriesLoop (acc : List Tab) : List SEntry → Except SchemaError (List Tab)
  | [] => .ok acc
  | e :: rest =>
    match e.title with
    | none => .error (.missingKey "title")
    | some t =>
      match e.url with
      | none => .error (.missingKey "url")
      | some u => entriesLoop (acc ++ [(t, u)]) rest

/-- The loop of `tab_info` over one window's tabs. -/
def tabsLoop (acc : List Tab) : List STab → Except SchemaError (List Tab)
  | [] => .ok acc
  | t :: rest =>
    match t.entries with
    | none => .error (.missingKey "entries")
    | some es =>
      match entriesLoop acc es with
      | .error e => .error e
      | .ok acc => tabsLoop acc rest

/-- The outer loop of `tab_info` over the document's windows. -/
def windowsLoop (acc : List Tab) : List SWindow → Except SchemaError (List Tab)
  | [] => .ok acc
  | w :: rest =>
    match w.tabs with
    | none => .error (.missingKey "tabs")
    | some ts =>
      match tabsLoop acc ts with
      | .error e => .error e
      | .ok acc => windowsLoop acc rest

/-- `fftabs.tab_info`: flatten a sessionstore document into the list of
`(title, url)` pairs, in document order; fail on the first missing field. -/
def tab_info (data : SessionDoc) : Except SchemaError (List Tab) :=
  match data.windows with
  | none => .error (.missingKey "windows")
  | some ws => windowsLoop [] ws

/-- A navigation entry missing its title or its URL. -/
def entryBad (e : SEntry) : Bool := e.title.isNone || e.url.isNone

/-- A tab missing its entry list, or containing a bad entry. -/
def tabBad (t : STab) : Bool :=
  match t.entries with
  | none => true
  | some es => es.any entryBad

/-- A window missing its tab list, or containing a bad tab. -/
def windowBad (w : SWindow) : Bool :=
  match w.tabs with
  | none => true
  | some ts => ts.any tabBad

/-- A document whose (present) window list contains a bad window: this is
exactly the condition of the claim about `SchemaError` — some window lacks
`tabs`, some tab lacks `entries`, or some entry lacks `title` or `url`. -/
def docBad (d : SessionDoc) : Bool :=
  match d.windows with
  | none => false
  | some ws => ws.any windowBad

/-! ### The Discovery/CLI Shell, fftabs.__main__

The shell is modelled over the list of per-file decode outcomes: reading
and lz4/json-decoding a file either fails (`DecodeError`) or yields a
parsed document.  The `__main__` loop calls `read_jsonlz4` and `tab_info`
on each file with no exception handling, so the first failure propagates
and ends the run. -/

/-- Failure of `read_jsonlz4` on one file (header, lz4 or JSON failure). -/
inductive DecodeError where
  | failed
deriving DecidableEq

/-- An error escaping the `__main__` per-file loop. -/
inductive RunError where
  | decode (e : DecodeError)
  | schema (e : SchemaError)
deriving DecidableEq

/-- `tabs.update(...)`: add each extracted tab to the accumulated set,
modelled as an insertion-ordered list without duplicates. -/
def mergeTabs (acc : List Tab) (ts : List Tab) : List Tab :=
  ts.foldl (fun acc t => if t ∈ acc then acc else acc ++ [t]) acc

/-- The `__main__` per-file loop: decode each file, extract its tabs and
merge them; any exception propagates immediately and aborts the loop. -/
def runFiles (acc : List Tab) : List (Except DecodeError SessionDoc) → Except RunError (List Tab)
  | [] => .ok acc
  | f :: rest =>
    match f with
    | .error e => .error (.decode e)
    | .ok doc =>
      match tab_info doc with
      | .error e => .error (.schema e)
      | .ok ts => runFiles (mergeTabs acc ts) rest

/-- The `__main__` collection phase, started from the empty tab set. -/
def runMain (files : List (Except DecodeError SessionDoc)) : Except RunError (List Tab) :=
  runFiles [] files

/-- A file whose decoding or extraction raises. -/
def fileBad (f : Except DecodeError SessionDoc) : Bool :=
  match f with
  | .error _ => true
  | .ok d =>
    match tab_info d with
    | .error _ => true
    | .ok _ => false

/-- The `__main__` query dispatch: `len(sys.argv) > 1` is true whenever a
first argument is present, even the empty string, and only then is
`suggest_tabs` called (with the default `nmax = 10`). -/
def mainSelect (tabs : List Tab) (argv1 : Option Str) : List Tab :=
  match argv1 with
  | some query => suggest_tabs tabs query 10
  | none => tabs

/-! ### Concrete sample data -/

/-- A well-formed document with one window, one tab, one entry. -/
def goodDoc : SessionDoc :=
  ⟨some [⟨some [⟨some [⟨some "GitHub".data, some "https://github.com/".data⟩]⟩]⟩]⟩

/-- A document whose only navigation entry lacks its `title` field. -/
def badDoc : SessionDoc :=
  ⟨some [⟨some [⟨some [⟨none, some "https://github.com/".data⟩]⟩]⟩]⟩

/-- Twenty identical records, each scoring 9 against the query `github`. -/
def twentyTabs : List Tab := List.replicate 20 ("github".data, "github".data)

/-! ### Bounds on the similarity ratio -/

theorem commonLen_le_left (a b : List Char) : commonLen a b ≤ a.length := by
  induction a generalizing b with
  | nil => simp [commonLen]
  | cons x xs ih =>
    cases b with
    | nil => simp [commonLen]
    | cons y ys =>
      simp only [commonLen, List.length_cons]
      split
      · exact Nat.succ_le_succ (ih ys)
      · exact Nat.zero_le _

theorem commonLen_le_right (a b : List Char) : commonLen a b ≤ b.length := by
  induction a generalizing b with
  | nil => simp [commonLen]
  | cons x xs ih =>
    cases b with
    | nil => simp [commonLen]
    | cons y ys =>
      simp only [commonLen, List.length_cons]
      split
      · exact Nat.succ_le_succ (ih ys)
      · exact Nat.zero_le _

/-- A fold preserves any invariant preserved by each step. -/
theorem foldl_invariant {α β : Type} (f : β → α → β) (Q : β → Prop) :
    ∀ (l : List α) (init : β), Q init → (∀ s a, a ∈ l → Q s → Q (f s a)) →
      Q (l.foldl f init)
  | [], _, h, _ => h
  | a :: l, init, h, hs =>
    foldl_invariant f Q l (f init a) (hs init a (.head _) h)
      (fun s x hx hq => hs s x (.tail _ hx) hq)

theorem flmInner_inv (a b : List Char) (best : Nat × Nat × Nat) (i : Nat)
    (hia : i < a.length) (hq : FlmInv a b best) : FlmInv a b (flmInner a b best i) := by
  unfold flmInner
  refine foldl_invariant _ (FlmInv a b) _ best hq ?_
  intro t j hj ht
  have hjb : j < b.length := List.mem_range.mp hj
  split
  · have h1 := commonLen_le_left (a.drop i) (b.drop j)
    have h2 := commonLen_le_right (a.drop i) (b.drop j)
    simp only [List.length_drop] at h1 h2
    simp only [FlmInv]
    exact ⟨by omega, by omega, fun _ => ⟨hia, hjb⟩⟩
  · exact ht

/-- The block returned by `findLongestMatch` lies inside both sequences. -/
theorem findLongestMatch_bounds (a b : List Char) :
    FlmInv a b (findLongestMatch a b) := by
  unfold findLongestMatch
  refine foldl_invariant _ (FlmInv a b) _ (0, 0, 0)
    ⟨by simp, by simp, fun h => absurd rfl h⟩ ?_
  intro s i hi hq
  exact flmInner_inv a b s i (List.mem_range.mp hi) hq


/-- The matching blocks are disjoint in each sequence, so their total size
is at most either length (whatever the fuel). -/
theorem matchTotalF_le (fuel : Nat) : ∀ a b : List Char,
    matchTotalF fuel a b ≤ a.length ∧ matchTotalF fuel a b ≤ b.length := by
  induction fuel with
  | zero => intro a b; simp [matchTotalF]
  | succ fuel ih =>
    intro a b
    simp only [matchTotalF]
    split
    · simp
    · rename_i hk
      obtain ⟨h1, h2, h3⟩ := findLongestMatch_bounds a b
      have hik := h3 hk
      have hl := ih (a.take (findLongestMatch a b).1) (b.take (findLongestMatch a b).2.1)
      have hr := ih (a.drop ((findLongestMatch a b).1 + (findLongestMatch a b).2.2))
                    (b.drop ((findLongestMatch a b).2.1 + (findLongestMatch a b).2.2))
      simp only [List.length_take, List.length_drop] at hl hr
      constructor <;> omega

theorem ratioVal_nonneg (a b : List Char) : 0 ≤ ratioVal a b := by
  unfold ratioVal
  split
  · norm_num
  · positivity

theorem ratioVal_le_one (a b : List Char) : ratioVal a b ≤ 1 := by
  unfold ratioVal
  split
  · norm_num
  · rename_i h
    rw [div_le_one (by exact_mod_cast Nat.pos_of_ne_zero h)]
    have h1 := (matchTotalF_le (a.length + b.length) a b).1
    have h2 := (matchTotalF_le (a.length + b.length) a b).2
    have : 2 * matchTotal a b ≤ a.length + b.length := by
      unfold matchTotal; omega
    exact_mod_cast this

theorem diffStep_ge (query : Str) (total : ℚ) (s : Option Str) :
    total ≤ diffStep query total s := by
  unfold diffStep
  rcases s with _ | str
  · exact le_refl _
  · dsimp only
    split
    · exact le_refl _
    · have := ratioVal_nonneg query str
      linarith

theorem diffStep_le (query : Str) (total : ℚ) (s : Option Str) :
    diffStep query total s ≤ total + 1 := by
  unfold diffStep
  rcases s with _ | str
  · linarith
  · dsimp only
    split
    · linarith
    · have := ratioVal_le_one query str
      linarith

theorem diff_value_nonneg (query title url : Str) : 0 ≤ diff_value query title url := by
  unfold diff_value
  simp only [List.foldl]
  have g1 := diffStep_ge query 0 (some title)
  have g2 := diffStep_ge query (diffStep query 0 (some title)) (some url)
  have g3 := diffStep_ge query (diffStep query (diffStep query 0 (some title)) (some url))
    (urlparse url).1
  have g4 := diffStep_ge query
    (diffStep query (diffStep query (diffStep query 0 (some title)) (some url)) (urlparse url).1)
    (some (urlparse url).2)
  linarith

theorem diff_value_le_four (query title url : Str) : diff_value query title url ≤ 4 := by
  unfold diff_value
  simp only [List.foldl]
  have g1 := diffStep_le query 0 (some title)
  have g2 := diffStep_le query (diffStep query 0 (some title)) (some url)
  have g3 := diffStep_le query (diffStep query (diffStep query 0 (some title)) (some url))
    (urlparse url).1
  have g4 := diffStep_le query
    (diffStep query (diffStep query (diffStep query 0 (some title)) (some url)) (urlparse url).1)
    (some (urlparse url).2)
  linarith

/-! ### The score as a closed form -/

/-- `value` written without its intermediate accumulator: the two substring
bonuses (only for queries of length at least 3) plus the similarity sum. -/
theorem value_eq (query : Str) (tab : Tab) :
    value query tab =
      (if 3 ≤ (lowerStr query).length then
        (if isSubstr (lowerStr query) (lowerStr tab.1) then (3 : ℚ) else 0)
          + (if isSubstr (lowerStr query) (lowerStr tab.2) then (3 : ℚ) else 0)
       else 0)
      + diff_value (lowerStr query) (lowerStr tab.1) (lowerStr tab.2) := by
  simp only [value]
  split_ifs <;> ring

theorem lowerStr_length (s : Str) : (lowerStr s).length = s.length := by
  simp [lowerStr]

/-- ASCII case folding absorbs upper-casing. -/
theorem toLower_toUpper (c : Char) : c.toUpper.toLower = c.toLower := by
  simp only [Char.toUpper, Char.toLower]
  by_cases h : c.toNat ≥ 97 ∧ c.toNat ≤ 122
  · rw [if_pos h]
    have hv : Nat.isValidChar (c.toNat - 32) := Or.inl (by omega)
    have ht : (Char.ofNat (c.toNat - 32)).toNat = c.toNat - 32 := by
      rw [Char.ofNat, dif_pos hv]
      rfl
    rw [ht, if_pos (by omega : c.toNat - 32 ≥ 65 ∧ c.toNat - 32 ≤ 90),
      if_neg (by omega : ¬(c.toNat ≥ 65 ∧ c.toNat ≤ 90))]
    have h32 : c.toNat - 32 + 32 = c.toNat := by omega
    rw [h32, Char.ofNat_toNat]
  · rw [if_neg h]

theorem lowerStr_upperStr (s : Str) : lowerStr (upperStr s) = lowerStr s := by
  simp only [lowerStr, upperStr, List.map_map]
  exact List.map_congr_left fun c _ => toLower_toUpper c

/-! ### Facts about the Ranker -/

theorem mem_suggest_tabs_gt (tabs : List Tab) (query : Str) (nmax : Nat) (r : Tab)
    (h : r ∈ suggest_tabs tabs query nmax) : 3 / 2 < value query r := by
  unfold suggest_tabs at h
  have h1 := List.take_subset _ _ h
  rw [List.mem_insertionSort, List.mem_filter] at h1
  exact of_decide_eq_true h1.2

theorem mem_suggest_tabs_iff (tabs : List Tab) (query : Str) (nmax : Nat) (r : Tab)
    (hn : tabs.length ≤ nmax) :
    r ∈ suggest_tabs tabs query nmax ↔ r ∈ tabs ∧ 3 / 2 < value query r := by
  unfold suggest_tabs
  rw [List.take_of_length_le, List.mem_insertionSort, List.mem_filter]
  · constructor
    · exact fun h => ⟨h.1, of_decide_eq_true h.2⟩
    · exact fun h => ⟨h.1, decide_eq_true h.2⟩
  · rw [List.length_insertionSort]
    exact le_trans (List.length_filter_le _ _) hn

theorem suggest_tabs_sorted (tabs : List Tab) (query : Str) (nmax : Nat) :
    (suggest_tabs tabs query nmax).Pairwise
      (fun a b => value query b ≤ value query a) := by
  unfold suggest_tabs
  refine List.Pairwise.sublist (List.take_sublist _ _) ?_
  haveI : IsTotal Tab (fun a b => value query b ≤ value query a) :=
    ⟨fun a b => le_total _ _⟩
  haveI : IsTrans Tab (fun a b => value query b ≤ value query a) :=
    ⟨fun _ _ _ h1 h2 => le_trans h2 h1⟩
  exact List.sorted_insertionSort _ _

theorem suggest_tabs_length_le (tabs : List Tab) (query : Str) (nmax : Nat) :
    (suggest_tabs tabs query nmax).length ≤ nmax := by
  unfold suggest_tabs
  rw [List.length_take]
  exact min_le_left _ _

theorem suggest_tabs_length_eq (tabs : List Tab) (query : Str) (nmax : Nat)
    (h : nmax ≤ (tabs.filter fun tab => decide ((3 : ℚ) / 2 < value query tab)).length) :
    (suggest_tabs tabs query nmax).length = nmax := by
  unfold suggest_tabs
  rw [List.length_take, List.length_insertionSort]
  omega

/-! ### Facts about the Tab Extractor -/

theorem entriesLoop_ok (es : List SEntry) : ∀ acc, es.any entryBad = false →
    ∃ r, entriesLoop acc es = .ok r := by
  induction es with
  | nil => exact fun acc _ => ⟨acc, rfl⟩
  | cons e rest ih =>
    intro acc h
    simp only [List.any_cons, Bool.or_eq_false_iff, entryBad] at h
    obtain ⟨⟨ht, hu⟩, hrest⟩ := h
    unfold entriesLoop
    cases het : e.title with
    | none => rw [het] at ht; simp at ht
    | some t =>
      cases heu : e.url with
      | none => rw [heu] at hu; simp at hu
      | some u => exact ih (acc ++ [(t, u)]) hrest

theorem entriesLoop_err (es : List SEntry) : ∀ acc, es.any entryBad = true →
    ∃ e, entriesLoop acc es = .error e := by
  induction es with
  | nil => intro acc h; simp at h
  | cons e rest ih =>
    intro acc h
    unfold entriesLoop
    cases het : e.title with
    | none => exact ⟨_, rfl⟩
    | some t =>
      cases heu : e.url with
      | none => exact ⟨_, rfl⟩
      | some u =>
        apply ih
        simp only [List.any_cons, Bool.or_eq_true, entryBad] at h
        rcases h with (h | h) | h
        · rw [het] at h; simp at h
        · rw [heu] at h; simp at h
        · exact h

theorem tabsLoop_ok (ts : List STab) : ∀ acc, ts.any tabBad = false →
    ∃ r, tabsLoop acc ts = .ok r := by
  induction ts with
  | nil => exact fun acc _ => ⟨acc, rfl⟩
  | cons t rest ih =>
    intro acc h
    simp only [List.any_cons, Bool.or_eq_false_iff, tabBad] at h
    obtain ⟨ht, hrest⟩ := h
    unfold tabsLoop
    cases het : t.entries with
    | none => rw [het] at ht; simp at ht
    | some es =>
      rw [het] at ht
      obtain ⟨r, hr⟩ := entriesLoop_ok es acc ht
      dsimp only
      rw [hr]
      exact ih r hrest

theorem tabsLoop_err (ts : List STab) : ∀ acc, ts.any tabBad = true →
    ∃ e, tabsLoop acc ts = .error e := by
  induction ts with
  | nil => intro acc h; simp at h
  | cons t rest ih =>
    intro acc h
    unfold tabsLoop
    cases het : t.entries with
    | none => exact ⟨_, rfl⟩
    | some es =>
      cases hany : es.any entryBad with
      | true =>
        obtain ⟨e, he⟩ := entriesLoop_err es acc hany
        dsimp only
        rw [he]
        exact ⟨e, rfl⟩
      | false =>
        obtain ⟨r, hr⟩ := entriesLoop_ok es acc hany
        dsimp only
        rw [hr]
        apply ih
        simp only [List.any_cons, Bool.or_eq_true, tabBad] at h
        rcases h with h | h
        · rw [het] at h
          dsimp only at h
          rw [hany] at h
          exact absurd h (by simp)
        · exact h

theorem windowsLoop_err (ws : List SWindow) : ∀ acc, ws.any windowBad = true →
    ∃ e, windowsLoop acc ws = .error e := by
  induction ws with
  | nil => intro acc h; simp at h
  | cons w rest ih =>
    intro acc h
    unfold windowsLoop
    cases hwt : w.tabs with
    | none => exact ⟨_, rfl⟩
    | some ts =>
      cases hany : ts.any tabBad with
      | true =>
        obtain ⟨e, he⟩ := tabsLoop_err ts acc hany
        dsimp only
        rw [he]
        exact ⟨e, rfl⟩
      | false =>
        obtain ⟨r, hr⟩ := tabsLoop_ok ts acc hany
        dsimp only
        rw [hr]
        apply ih
        simp only [List.any_cons, Bool.or_eq_true, windowBad] at h
        rcases h with h | h
        · rw [hwt] at h
          dsimp only at h
          rw [hany] at h
          exact absurd h (by simp)
        · exact h

/-! ### Facts about the Shell's per-file loop -/

theorem runFiles_err (files : List (Except DecodeError SessionDoc)) :
    ∀ acc, files.any fileBad = true → ∃ e, runFiles acc files = .error e := by
  induction files with
  | nil => intro acc h; simp at h
  | cons f rest ih =>
    intro acc h
    unfold runFiles
    cases f with
    | error e => exact ⟨_, rfl⟩
    | ok doc =>
      dsimp only
      cases hti : tab_info doc with
      | error e => exact ⟨_, rfl⟩
      | ok ts =>
        apply ih
        simp only [List.any_cons, Bool.or_eq_true, fileBad] at h
        rcases h with h | h
        · rw [hti] at h; exact absurd h (by simp)
        · exact h

/-! ### The empty query scores zero -/

theorem findLongestMatch_nil_left (b : List Char) : findLongestMatch [] b = (0, 0, 0) := rfl

theorem matchTotalF_nil_left (fuel : Nat) (b : List Char) : matchTotalF fuel [] b = 0 := by
  cases fuel with
  | zero => rfl
  | succ fuel => simp [matchTotalF, findLongestMatch_nil_left]

theorem ratioVal_nil_left (str : Str) (h : str ≠ []) : ratioVal [] str = 0 := by
  unfold ratioVal
  rw [if_neg (by simpa using h)]
  have hm : matchTotal [] str = 0 := matchTotalF_nil_left _ _
  rw [hm]
  norm_num

theorem diffStep_nil_query (total : ℚ) (s : Option Str) : diffStep [] total s = total := by
  unfold diffStep
  rcases s with _ | str
  · rfl
  · dsimp only
    split
    · rfl
    · rename_i hne
      rw [ratioVal_nil_left str (by simpa using hne), add_zero]

theorem diff_value_nil_query (title url : Str) : diff_value [] title url = 0 := by
  unfold diff_value
  simp only [List.foldl, diffStep_nil_query]

theorem value_nil_query (tab : Tab) : value [] tab = 0 := by
  rw [value_eq]
  have h3 : ¬ 3 ≤ (lowerStr ([] : Str)).length := by simp [lowerStr]
  rw [if_neg h3]
  have hd : diff_value (lowerStr ([] : Str)) (lowerStr tab.1) (lowerStr tab.2) = 0 :=
    diff_value_nil_query _ _
  rw [hd, add_zero]

theorem suggest_tabs_nil_query (tabs : List Tab) (nmax : Nat) :
    suggest_tabs tabs [] nmax = [] := by
  simp only [suggest_tabs]
  have hf : (tabs.filter fun tab => decide ((3 : ℚ) / 2 < value [] tab)) = [] := by
    rw [List.filter_eq_nil_iff]
    intro tab _
    rw [value_nil_query]
    norm_num
  rw [hf]
  simp

/-! ### The claims -/

/-- Claim C1, counterexample: the claim says a decode failure on one file is
caught, skipped, and tabs from other files are still collected; in fact the
`__main__` loop has no exception handling, so with a failing first file and
a well-formed second file the whole run aborts with the error and no tab
collection is produced at all. -/
theorem claim_C1_counterexample :
    runMain [Except.error DecodeError.failed, Except.ok goodDoc] =
      Except.error (RunError.decode DecodeError.failed) ∧
    ¬ ∃ ts, runMain [Except.error DecodeError.failed, Except.ok goodDoc] = Except.ok ts ∧
        ("GitHub".data, "https://github.com/".data) ∈ ts := by
  constructor
  · rfl
  · rintro ⟨ts, h, -⟩
    have h0 : runMain [Except.error DecodeError.failed, Except.ok goodDoc] =
        Except.error (RunError.decode DecodeError.failed) := rfl
    rw [h0] at h
    exact Except.noConfusion h

/-- Claim C1 as amended: a `DecodeError` or `SchemaError` on any snapshot
file is not caught anywhere; it propagates out of the per-file loop and the
whole run aborts with an error (so no file's tabs are printed). -/
theorem claim_C1 (files : List (Except DecodeError SessionDoc))
    (h : files.any fileBad = true) : ∃ e, runMain files = Except.error e :=
  runFiles_err files [] h

/-- Claim C1 witness: a concrete run with one good and one corrupt file
aborts with an error. -/
theorem claim_C1_witness :
    ([Except.ok goodDoc, Except.error DecodeError.failed].any fileBad = true) ∧
    ∃ e, runMain [Except.ok goodDoc, Except.error DecodeError.failed] = Except.error e :=
  ⟨by decide, claim_C1 [Except.ok goodDoc, Except.error DecodeError.failed] (by decide)⟩

/-- Claim C2: for every successfully parsed document in which some window
lacks its `tabs` list, some tab lacks its `entries` list, or some entry
lacks its `title` or `url` field (the condition `docBad`), `tab_info`
fails with a `SchemaError` rather than skipping the missing piece. -/
theorem claim_C2 (d : SessionDoc) (h : docBad d = true) :
    ∃ e, tab_info d = Except.error e := by
  unfold tab_info
  unfold docBad at h
  cases hw : d.windows with
  | none => exact ⟨_, rfl⟩
  | some ws =>
    rw [hw] at h
    dsimp only at h
    exact windowsLoop_err ws [] h

/-- Claim C2 witness: a document whose entry lacks its title makes
`tab_info` fail. -/
theorem claim_C2_witness :
    docBad badDoc = true ∧ ∃ e, tab_info badDoc = Except.error e :=
  ⟨by decide, claim_C2 badDoc (by decide)⟩

/-- Claim C3, counterexample: the claim says an empty query skips ranking
and returns the collection unmodified; in fact `len(sys.argv) > 1` is true
for an empty-string argument, `suggest_tabs` is called, every record scores
0 and is filtered out, and the output is empty rather than the unmodified
collection. -/
theorem claim_C3_counterexample :
    mainSelect [("GitHub".data, "https://github.com/".data)] (some []) = [] ∧
    ([] : List Tab) ≠ [("GitHub".data, "https://github.com/".data)] := by
  constructor
  · exact suggest_tabs_nil_query _ _
  · decide

/-- Claim C3 as amended: ranking is skipped (and the deduplicated
collection returned unmodified) only when the query argument is absent;
when the empty string is passed as the argument, ranking is applied, every
score is 0 and fails the 1.5 threshold, and the printed collection is
empty. -/
theorem claim_C3 (tabs : List Tab) :
    mainSelect tabs none = tabs ∧ mainSelect tabs (some []) = [] :=
  ⟨rfl, suggest_tabs_nil_query tabs 10⟩

/-- Claim C4: for a query of length at least 3 the score is the title
bonus (3 when the lowered query is a substring of the lowered title) plus,
independently, the URL bonus (3 again), plus the similarity terms; for a
shorter query no bonus is added; and on the fixed example the two bonuses
both apply and the total exceeds 6. -/
theorem claim_C4 (query : Str) (tab : Tab) :
    (3 ≤ query.length →
      value query tab =
        (if isSubstr (lowerStr query) (lowerStr tab.1) then (3 : ℚ) else 0)
          + (if isSubstr (lowerStr query) (lowerStr tab.2) then (3 : ℚ) else 0)
          + diff_value (lowerStr query) (lowerStr tab.1) (lowerStr tab.2))
    ∧ (query.length < 3 →
      value query tab = diff_value (lowerStr query) (lowerStr tab.1) (lowerStr tab.2))
    ∧ 6 < value "mail".data ("Gmail - Inbox".data, "https://mail.google.com/".data) := by
  refine ⟨?_, ?_, ?_⟩
  · intro h
    rw [value_eq, if_pos (by rw [lowerStr_length]; exact h)]
  · intro h
    rw [value_eq, if_neg (by rw [lowerStr_length]; omega)]
    ring
  · decide

/-- Claim C4 witness: the decomposition applied to the fixed example. -/
theorem claim_C4_witness :
    3 ≤ "mail".data.length ∧
    value "mail".data ("Gmail - Inbox".data, "https://mail.google.com/".data) =
      (if isSubstr (lowerStr "mail".data) (lowerStr "Gmail - Inbox".data) then (3 : ℚ) else 0)
        + (if isSubstr (lowerStr "mail".data) (lowerStr "https://mail.google.com/".data)
            then (3 : ℚ) else 0)
        + diff_value (lowerStr "mail".data) (lowerStr "Gmail - Inbox".data)
            (lowerStr "https://mail.google.com/".data) :=
  ⟨by decide,
    (claim_C4 "mail".data ("Gmail - Inbox".data, "https://mail.google.com/".data)).1 (by decide)⟩

/-- Claim C5: every record in the Ranker's output scores strictly above
the 1.5 threshold; a record scoring at most 1.5 (in particular exactly
1.5) is never in the output; and when the result cap does not bind,
membership in the output is exactly membership in the input with score
strictly above 1.5. -/
theorem claim_C5 (tabs : List Tab) (query : Str) (nmax : Nat) (r : Tab) :
    (r ∈ suggest_tabs tabs query nmax → 3 / 2 < value query r)
    ∧ (value query r ≤ 3 / 2 → r ∉ suggest_tabs tabs query nmax)
    ∧ (tabs.length ≤ nmax →
        (r ∈ suggest_tabs tabs query nmax ↔ r ∈ tabs ∧ 3 / 2 < value query r)) := by
  refine ⟨fun h => mem_suggest_tabs_gt tabs query nmax r h, ?_,
    fun hn => mem_suggest_tabs_iff tabs query nmax r hn⟩
  intro hle hmem
  exact absurd (mem_suggest_tabs_gt tabs query nmax r hmem) (not_lt.mpr hle)

/-- Claim C5 witness: a concrete member of the ranked output scores above
the threshold. -/
theorem claim_C5_witness :
    (("GitHub".data, "https://github.com/".data) ∈
        suggest_tabs [("GitHub".data, "https://github.com/".data)] "git".data 10) ∧
    3 / 2 < value "git".data ("GitHub".data, "https://github.com/".data) :=
  ⟨by decide,
    (claim_C5 [("GitHub".data, "https://github.com/".data)] "git".data 10
      ("GitHub".data, "https://github.com/".data)).1 (by decide)⟩

/-- Claim C6: the Ranker's output is sorted by non-increasing score — every
record is followed only by records of score less than or equal to its own
(which implies the adjacent-pairs form of the claim). -/
theorem claim_C6 (tabs : List Tab) (query : Str) (nmax : Nat) :
    (suggest_tabs tabs query nmax).Pairwise (fun a b => value query b ≤ value query a) :=
  suggest_tabs_sorted tabs query nmax

/-- Claim C7: the Ranker returns at most `nmax` records, and exactly `nmax`
when at least `nmax` input records score above the threshold. -/
theorem claim_C7 (tabs : List Tab) (query : Str) (nmax : Nat) :
    (suggest_tabs tabs query nmax).length ≤ nmax ∧
    (nmax ≤ (tabs.filter fun tab => decide ((3 : ℚ) / 2 < value query tab)).length →
      (suggest_tabs tabs query nmax).length = nmax) :=
  ⟨suggest_tabs_length_le tabs query nmax, suggest_tabs_length_eq tabs query nmax⟩

/-- Claim C7 witness: with 20 records all above threshold and the default
cap 10, exactly 10 records are returned. -/
theorem claim_C7_witness :
    (10 ≤ (twentyTabs.filter fun tab =>
        decide ((3 : ℚ) / 2 < value "github".data tab)).length) ∧
    (suggest_tabs twentyTabs "github".data 10).length = 10 :=
  ⟨by decide, (claim_C7 twentyTabs "github".data 10).2 (by decide)⟩

/-- Claim C8: the score is non-negative for every query string and every
record. -/
theorem claim_C8 (query : Str) (tab : Tab) : 0 ≤ value query tab := by
  rw [value_eq]
  have hd := diff_value_nonneg (lowerStr query) (lowerStr tab.1) (lowerStr tab.2)
  split_ifs <;> linarith

/-- Claim C9: the score is case-insensitive in the query — it is invariant
under any re-casing of the query (any query with the same lower-casing),
and in particular under upper-casing. -/
theorem claim_C9 (query query2 : Str) (tab : Tab)
    (h : lowerStr query2 = lowerStr query) :
    value query2 tab = value query tab ∧ value (upperStr query) tab = value query tab := by
  constructor
  · rw [value_eq, value_eq, h]
  · rw [value_eq, value_eq, lowerStr_upperStr]

/-- Claim C9 witness: two casings of `mail` score identically on the fixed
example. -/
theorem claim_C9_witness :
    lowerStr "MaIL".data = lowerStr "mAil".data ∧
    (value "MaIL".data ("Gmail - Inbox".data, "https://mail.google.com/".data) =
        value "mAil".data ("Gmail - Inbox".data, "https://mail.google.com/".data) ∧
      value (upperStr "mAil".data) ("Gmail - Inbox".data, "https://mail.google.com/".data) =
        value "mAil".data ("Gmail - Inbox".data, "https://mail.google.com/".data)) :=
  ⟨by decide,
    claim_C9 "mAil".data "MaIL".data ("Gmail - Inbox".data, "https://mail.google.com/".data)
      (by decide)⟩

/-- Claim C10: for a query of fewer than 3 characters no substring bonus
applies, so the score is the sum of at most four ratios in `[0, 1]` and is
bounded by 4. -/
theorem claim_C10 (query : Str) (tab : Tab) (h : query.length < 3) :
    value query tab ≤ 4 := by
  rw [value_eq, if_neg (by rw [lowerStr_length]; omega)]
  have hd := diff_value_le_four (lowerStr query) (lowerStr tab.1) (lowerStr tab.2)
  linarith

/-- Claim C10 witness: a two-character query scores at most 4. -/
theorem claim_C10_witness :
    ("xy".data).length < 3 ∧
    value "xy".data ("GitHub".data, "https://github.com/".data) ≤ 4 :=
  ⟨by decide, claim_C10 "xy".data ("GitHub".data, "https://github.com/".data) (by decide)⟩

end Fftabs
